import Mathlib

/-!
Verification of the ply-rs PLY codec (header grammar/assembler, ascii and
binary payload codecs, consistency checker, writer orchestration).

The Rust source is shallowly embedded:

* `LinkedHashMap` (insertion ordered, unique keys, `insert` replaces the value
  in place and keeps the original position) is modelled as an association list
  `List (String × V)` together with `keyInsert` / `lookupKM`; key uniqueness,
  guaranteed structurally by the hash map, appears as a `Nodup` hypothesis
  where a theorem needs it.
* Byte streams are `List Nat` with each byte below 256; machine integers are
  `Nat` / `Int` with explicit `% 2 ^ w` where Rust casts truncate.
* `f32`/`f64` payload values are modelled by their IEEE bit patterns (`Nat`),
  which makes the binary codec exact.  The decimal-to-float rounding performed
  by Rust's `FromStr` and the shortest-roundtrip `Display` live in the Rust
  standard library, outside this repository; they are abstracted (the syntax
  check of a float token is modelled exactly, the resulting bit pattern is
  not).  No theorem below observes a float value.
* Fallible Rust functions returning `io::Result` become `Except String`;
  `write_ascii_element` can additionally panic (an `unwrap` on the first
  property), so writer entry points that can reach it return `WRes`, which
  distinguishes a panic from an error and from a normal return.
* The `written` byte-count bookkeeping of the writer equals the length of the
  produced output in every modelled path and is not tracked separately.
-/

deriving instance DecidableEq for Except

set_option maxRecDepth 8192
set_option synthInstance.maxSize 1024

namespace PlyRs

/-! ## Scalar/Type model (src/ply/property.rs) -/

inductive ScalarType
  | char | uchar | short | ushort | int | uint | float | double
  deriving DecidableEq, Repr

inductive PropertyType
  | scalar (t : ScalarType)
  | list (index : ScalarType) (elem : ScalarType)
  deriving DecidableEq, Repr

/-- Rust `Property`: the dynamic value wrapper.  Integer variants hold the
mathematical value (`Int`/`Nat`), float variants hold the IEEE bit pattern. -/
inductive Property
  | char (x : Int)
  | uchar (x : Nat)
  | short (x : Int)
  | ushort (x : Nat)
  | int (x : Int)
  | uint (x : Nat)
  | float (bits : Nat)
  | double (bits : Nat)
  | listChar (xs : List Int)
  | listUChar (xs : List Nat)
  | listShort (xs : List Int)
  | listUShort (xs : List Nat)
  | listInt (xs : List Int)
  | listUInt (xs : List Nat)
  | listFloat (bits : List Nat)
  | listDouble (bits : List Nat)
  deriving DecidableEq, Repr

/-- Length of the list stored in a list `Property` variant. -/
def propLength : Property → Option Nat
  | .listChar xs => some xs.length
  | .listUChar xs => some xs.length
  | .listShort xs => some xs.length
  | .listUShort xs => some xs.length
  | .listInt xs => some xs.length
  | .listUInt xs => some xs.length
  | .listFloat xs => some xs.length
  | .listDouble xs => some xs.length
  | _ => none

/-! ## KeyMap (src/ply/key_map.rs): LinkedHashMap as an association list -/

/-- Rust `LinkedHashMap::get`. -/
def lookupKM {α : Type} : List (String × α) → String → Option α
  | [], _ => none
  | (k', v) :: rest, k => if k' = k then some v else lookupKM rest k

/-- Rust `LinkedHashMap::insert`: replace in place if the key exists, else append. -/
def keyInsert {α : Type} : List (String × α) → String → α → List (String × α)
  | [], k, v => [(k, v)]
  | (k', v') :: rest, k, v =>
      if k' = k then (k, v) :: rest else (k', v') :: keyInsert rest k v

/-! ## Header data structures (src/ply/ply_data_structure.rs) -/

structure Version where
  major : Nat
  minor : Nat
  deriving DecidableEq, Repr

inductive Encoding
  | ascii | binaryBigEndian | binaryLittleEndian
  deriving DecidableEq, Repr

structure PropertyDef where
  name : String
  data_type : PropertyType
  deriving DecidableEq, Repr

structure ElementDef where
  name : String
  count : Nat
  properties : List PropertyDef
  deriving DecidableEq, Repr

/-- Rust `KeyMap<ElementDef>.get(k)` / `KeyMap<PropertyDef>` use the stored name as
the key (`Key` impls in key_map.rs), so lookup compares names. -/
def lookupElem : List ElementDef → String → Option ElementDef
  | [], _ => none
  | e :: rest, k => if e.name = k then some e else lookupElem rest k

/-- Rust `KeyMap::add` for `ElementDef` (insert under `e.name`). -/
def keyAddElem : List ElementDef → ElementDef → List ElementDef
  | [], e => [e]
  | e' :: rest, e => if e'.name = e.name then e :: rest else e' :: keyAddElem rest e

/-- Rust `KeyMap::add` for `PropertyDef` (insert under `p.name`). -/
def keyAddProp : List PropertyDef → PropertyDef → List PropertyDef
  | [], p => [p]
  | p' :: rest, p => if p'.name = p.name then p :: rest else p' :: keyAddProp rest p

structure Header where
  encoding : Encoding
  version : Version
  obj_infos : List String
  elements : List ElementDef
  comments : List String
  deriving DecidableEq, Repr

/-- Rust `DefaultElement` (src/ply/default_element.rs): ordered map name -> value. -/
abbrev DefaultElement := List (String × Property)

abbrev Payload := List (String × List DefaultElement)

structure Ply where
  header : Header
  payload : Payload
  deriving DecidableEq, Repr

/-! ### PropertyAccess for DefaultElement -/

def set_property (el : DefaultElement) (k : String) (v : Property) : DefaultElement :=
  keyInsert el k v

def get_char (el : DefaultElement) (k : String) : Option Int :=
  match lookupKM el k with | some (.char x) => some x | _ => none
def get_uchar (el : DefaultElement) (k : String) : Option Nat :=
  match lookupKM el k with | some (.uchar x) => some x | _ => none
def get_short (el : DefaultElement) (k : String) : Option Int :=
  match lookupKM el k with | some (.short x) => some x | _ => none
def get_ushort (el : DefaultElement) (k : String) : Option Nat :=
  match lookupKM el k with | some (.ushort x) => some x | _ => none
def get_int (el : DefaultElement) (k : String) : Option Int :=
  match lookupKM el k with | some (.int x) => some x | _ => none
def get_uint (el : DefaultElement) (k : String) : Option Nat :=
  match lookupKM el k with | some (.uint x) => some x | _ => none
def get_float (el : DefaultElement) (k : String) : Option Nat :=
  match lookupKM el k with | some (.float x) => some x | _ => none
def get_double (el : DefaultElement) (k : String) : Option Nat :=
  match lookupKM el k with | some (.double x) => some x | _ => none
def get_list_char (el : DefaultElement) (k : String) : Option (List Int) :=
  match lookupKM el k with | some (.listChar x) => some x | _ => none
def get_list_uchar (el : DefaultElement) (k : String) : Option (List Nat) :=
  match lookupKM el k with | some (.listUChar x) => some x | _ => none
def get_list_short (el : DefaultElement) (k : String) : Option (List Int) :=
  match lookupKM el k with | some (.listShort x) => some x | _ => none
def get_list_ushort (el : DefaultElement) (k : String) : Option (List Nat) :=
  match lookupKM el k with | some (.listUShort x) => some x | _ => none
def get_list_int (el : DefaultElement) (k : String) : Option (List Int) :=
  match lookupKM el k with | some (.listInt x) => some x | _ => none
def get_list_uint (el : DefaultElement) (k : String) : Option (List Nat) :=
  match lookupKM el k with | some (.listUInt x) => some x | _ => none
def get_list_float (el : DefaultElement) (k : String) : Option (List Nat) :=
  match lookupKM el k with | some (.listFloat x) => some x | _ => none
def get_list_double (el : DefaultElement) (k : String) : Option (List Nat) :=
  match lookupKM el k with | some (.listDouble x) => some x | _ => none

/-! ## Numeric token parsing (Rust `FromStr` for the integer types; the float
syntax check of `f32`/`f64` `FromStr` on the tokenizer's token domain) -/

/-- Value of a non-empty all-digit character sequence; `none` otherwise. -/
def parseDigits : List Char → Option Nat
  | [] => none
  | cs =>
    if cs.all Char.isDigit then
      some (cs.foldl (fun a c => a * 10 + (c.toNat - 48)) 0)
    else none

/-- Rust `FromStr` for an unsigned integer of bit width `w`:
optional `+` sign, digits, value in range.  A `-` sign is rejected. -/
def parseUnsigned (w : Nat) (s : String) : Option Nat :=
  let core : List Char → Option Nat := fun cs =>
    (parseDigits cs).bind (fun n => if n < 2 ^ w then some n else none)
  match s.data with
  | '+' :: rest => core rest
  | rest => core rest

/-- Rust `FromStr` for a signed integer of bit width `w`. -/
def parseSigned (w : Nat) (s : String) : Option Int :=
  let core : List Char → Option Nat := fun cs => parseDigits cs
  match s.data with
  | '+' :: rest =>
      (core rest).bind (fun n => if n < 2 ^ (w - 1) then some (Int.ofNat n) else none)
  | '-' :: rest =>
      (core rest).bind (fun n => if n ≤ 2 ^ (w - 1) then some (-(Int.ofNat n)) else none)
  | rest =>
      (core rest).bind (fun n => if n < 2 ^ (w - 1) then some (Int.ofNat n) else none)

def parse_i8 (s : String) : Option Int := parseSigned 8 s
def parse_u8 (s : String) : Option Nat := parseUnsigned 8 s
def parse_i16 (s : String) : Option Int := parseSigned 16 s
def parse_u16 (s : String) : Option Nat := parseUnsigned 16 s
def parse_i32 (s : String) : Option Int := parseSigned 32 s
def parse_u32 (s : String) : Option Nat := parseUnsigned 32 s
/-- Rust `usize` on a 64-bit target. -/
def parse_usize (s : String) : Option Nat := parseUnsigned 64 s

/-- Pattern `digits [. digits*] | . digits+` (the decimal part of Rust's float
grammar). -/
def decimalPartOk (cs : List Char) : Bool :=
  let sp := cs.span Char.isDigit
  match sp.2 with
  | [] => !sp.1.isEmpty
  | '.' :: r2 =>
      let sp2 := r2.span Char.isDigit
      sp2.2.isEmpty && (!sp.1.isEmpty || !sp2.1.isEmpty)
  | _ => false

/-- Split a character list at the first `e`/`E`. -/
def splitAtExp : List Char → (List Char × Option (List Char))
  | [] => ([], none)
  | c :: rest =>
      if c = 'e' ∨ c = 'E' then ([], some rest)
      else
        let r := splitAtExp rest
        (c :: r.1, r.2)

/-- Syntax accepted by Rust's `f32`/`f64` `FromStr` on the decimal token
domain produced by the data-line tokenizer:
`[sign] (digits [. digits*] | . digits+) [(e|E) [sign] digits]`. -/
def floatSyntaxOk (s : String) : Bool :=
  let cs :=
    match s.data with
    | '+' :: rest => rest
    | '-' :: rest => rest
    | rest => rest
  let (mant, expPart) := splitAtExp cs
  decimalPartOk mant &&
    match expPart with
    | none => true
    | some ec =>
        let ec' := match ec with
          | '+' :: r => r
          | '-' :: r => r
          | r => r
        (parseDigits ec').isSome

/-- Rust `f32::from_str` on a numeric token.  Parse success is modelled
exactly on the token domain; the rounded bit pattern produced by the standard
library is not modelled (no theorem observes the value). -/
def parse_f32 (s : String) : Option Nat :=
  if floatSyntaxOk s then some 0 else none

/-- Rust `f64::from_str`, same modelling as `parse_f32`. -/
def parse_f64 (s : String) : Option Nat :=
  if floatSyntaxOk s then some 0 else none

/-! ## Ascii payload decoding (src/parser/mod.rs, `read_ascii_element`,
`__read_ascii_property`, `__read_ascii_list`, `parse`) -/

/-- Rust `Parser::parse`: lift a `FromStr` failure into an error. -/
def parseScalarE {α : Type} (p : String → Option α) (s : String) : Except String α :=
  match p s with
  | some v => .ok v
  | none => .error ("Parse error. Value: " ++ s)

/-- Rust `__read_ascii_list::<D>`: read `count` tokens, each parsed with `p`. -/
def readAsciiListG {α : Type} (p : String → Option α) :
    Nat → List String → Except String (List α × List String)
  | 0, ts => .ok ([], ts)
  | n + 1, ts =>
    match ts with
    | [] => .error "Couldn't find a list element."
    | t :: ts' =>
      (parseScalarE p t).bind fun v =>
        (readAsciiListG p n ts').map fun r => (v :: r.1, r.2)

/-- The 8-armed dispatch of `__read_ascii_property`'s list branch. -/
def readAsciiListProp (et : ScalarType) (count : Nat) (ts : List String) :
    Except String (Property × List String) :=
  match et with
  | .char => (readAsciiListG parse_i8 count ts).map fun r => (.listChar r.1, r.2)
  | .uchar => (readAsciiListG parse_u8 count ts).map fun r => (.listUChar r.1, r.2)
  | .short => (readAsciiListG parse_i16 count ts).map fun r => (.listShort r.1, r.2)
  | .ushort => (readAsciiListG parse_u16 count ts).map fun r => (.listUShort r.1, r.2)
  | .int => (readAsciiListG parse_i32 count ts).map fun r => (.listInt r.1, r.2)
  | .uint => (readAsciiListG parse_u32 count ts).map fun r => (.listUInt r.1, r.2)
  | .float => (readAsciiListG parse_f32 count ts).map fun r => (.listFloat r.1, r.2)
  | .double => (readAsciiListG parse_f64 count ts).map fun r => (.listDouble r.1, r.2)

/-- Rust `__read_ascii_property`: take the next token; for a scalar parse it as the
scalar kind; for a list parse it as `usize` (the declared index kind is
ignored: `PropertyType::List(_, ref scalar_type)`) and read that many element
tokens. -/
def read_ascii_property (dt : PropertyType) (ts : List String) :
    Except String (Property × List String) :=
  match ts with
  | [] => .error "Expected element, but found nothing."
  | t :: ts' =>
    match dt with
    | .scalar st =>
      match st with
      | .char => (parseScalarE parse_i8 t).map fun v => (.char v, ts')
      | .uchar => (parseScalarE parse_u8 t).map fun v => (.uchar v, ts')
      | .short => (parseScalarE parse_i16 t).map fun v => (.short v, ts')
      | .ushort => (parseScalarE parse_u16 t).map fun v => (.ushort v, ts')
      | .int => (parseScalarE parse_i32 t).map fun v => (.int v, ts')
      | .uint => (parseScalarE parse_u32 t).map fun v => (.uint v, ts')
      | .float => (parseScalarE parse_f32 t).map fun v => (.float v, ts')
      | .double => (parseScalarE parse_f64 t).map fun v => (.double v, ts')
    | .list _ et =>
      (parseScalarE parse_usize t).bind fun count => readAsciiListProp et count ts'

/-- Property loop of `read_ascii_element`, also returning the unconsumed
tokens (which the source simply drops). -/
def readAsciiElementGo : List PropertyDef → List String → DefaultElement →
    Except String (DefaultElement × List String)
  | [], ts, el => .ok (el, ts)
  | p :: ps, ts, el =>
    (read_ascii_property p.data_type ts).bind fun r =>
      readAsciiElementGo ps r.2 (set_property el p.name r.1)

/-- Rust `read_ascii_element` on the token list produced by the data-line
tokenizer: walk the declared properties consuming tokens, return the record;
leftover tokens are discarded. -/
def read_ascii_element (edef : ElementDef) (ts : List String) :
    Except String DefaultElement :=
  (readAsciiElementGo edef.properties ts []).map fun r => r.1

/-! ## Binary payload decoding (src/parser/mod.rs, `__read_binary_element`,
`__read_binary_property`, `__read_binary_list`; byteorder reads) -/

inductive ByteOrder
  | be | le
  deriving DecidableEq, Repr

/-- Rust `read_exact` on a byte list: take `n` bytes or fail with end-of-stream. -/
def readBytes (n : Nat) (bs : List Nat) : Except String (List Nat × List Nat) :=
  if n ≤ bs.length then .ok (bs.take n, bs.drop n)
  else .error "failed to fill whole buffer"

/-- Big-endian value of a byte list. -/
def beVal (bytes : List Nat) : Nat := bytes.foldl (fun a b => a * 256 + b) 0

def byteOrderVal (bo : ByteOrder) (bytes : List Nat) : Nat :=
  match bo with
  | .be => beVal bytes
  | .le => beVal bytes.reverse

/-- byteorder `read_uN`: `w` bytes interpreted in the given byte order. -/
def readUnsignedB (bo : ByteOrder) (w : Nat) (bs : List Nat) :
    Except String (Nat × List Nat) :=
  (readBytes w bs).map fun r => (byteOrderVal bo r.1, r.2)

/-- Two's complement reinterpretation of a `w`-byte unsigned value. -/
def toSigned (w : Nat) (v : Nat) : Int :=
  if v < 2 ^ (8 * w - 1) then (v : Int) else (v : Int) - 2 ^ (8 * w)

/-- byteorder `read_iN`. -/
def readSignedB (bo : ByteOrder) (w : Nat) (bs : List Nat) :
    Except String (Int × List Nat) :=
  (readUnsignedB bo w bs).map fun r => (toSigned w r.1, r.2)

/-- Rust `as usize` on a signed value: reinterpret mod `2 ^ 64`. -/
def usizeOfInt (x : Int) : Nat := (x.emod (2 ^ 64)).toNat

/-- Rust `__read_binary_list`: read `count` elements with `read1`. -/
def readBinaryListG {α : Type} (read1 : List Nat → Except String (α × List Nat)) :
    Nat → List Nat → Except String (List α × List Nat)
  | 0, bs => .ok ([], bs)
  | n + 1, bs =>
    match read1 bs with
    | .error e => .error ("Couldn't find a list element. " ++ e)
    | .ok (v, bs') =>
      (readBinaryListG read1 n bs').map fun r => (v :: r.1, r.2)

/-- The list-length read of `__read_binary_property`: the index kind is read
at its width and cast `as usize`; float and double index kinds are rejected. -/
def readBinaryCount (bo : ByteOrder) (it : ScalarType) (bs : List Nat) :
    Except String (Nat × List Nat) :=
  match it with
  | .char => (readSignedB bo 1 bs).map fun r => (usizeOfInt r.1, r.2)
  | .uchar => readUnsignedB bo 1 bs
  | .short => (readSignedB bo 2 bs).map fun r => (usizeOfInt r.1, r.2)
  | .ushort => readUnsignedB bo 2 bs
  | .int => (readSignedB bo 4 bs).map fun r => (usizeOfInt r.1, r.2)
  | .uint => readUnsignedB bo 4 bs
  | .float => .error "Index of list must be an integer type, float declared in ScalarType."
  | .double => .error "Index of list must be an integer type, double declared in ScalarType."

/-- The 8-armed element dispatch of `__read_binary_property`'s list branch. -/
def readBinaryListProp (bo : ByteOrder) (et : ScalarType) (count : Nat)
    (bs : List Nat) : Except String (Property × List Nat) :=
  match et with
  | .char => (readBinaryListG (readSignedB bo 1) count bs).map fun r => (.listChar r.1, r.2)
  | .uchar => (readBinaryListG (readUnsignedB bo 1) count bs).map fun r => (.listUChar r.1, r.2)
  | .short => (readBinaryListG (readSignedB bo 2) count bs).map fun r => (.listShort r.1, r.2)
  | .ushort => (readBinaryListG (readUnsignedB bo 2) count bs).map fun r => (.listUShort r.1, r.2)
  | .int => (readBinaryListG (readSignedB bo 4) count bs).map fun r => (.listInt r.1, r.2)
  | .uint => (readBinaryListG (readUnsignedB bo 4) count bs).map fun r => (.listUInt r.1, r.2)
  | .float => (readBinaryListG (readUnsignedB bo 4) count bs).map fun r => (.listFloat r.1, r.2)
  | .double => (readBinaryListG (readUnsignedB bo 8) count bs).map fun r => (.listDouble r.1, r.2)

/-- Rust `__read_binary_property`. -/
def read_binary_property (bo : ByteOrder) (dt : PropertyType) (bs : List Nat) :
    Except String (Property × List Nat) :=
  match dt with
  | .scalar st =>
    match st with
    | .char => (readSignedB bo 1 bs).map fun r => (.char r.1, r.2)
    | .uchar => (readUnsignedB bo 1 bs).map fun r => (.uchar r.1, r.2)
    | .short => (readSignedB bo 2 bs).map fun r => (.short r.1, r.2)
    | .ushort => (readUnsignedB bo 2 bs).map fun r => (.ushort r.1, r.2)
    | .int => (readSignedB bo 4 bs).map fun r => (.int r.1, r.2)
    | .uint => (readUnsignedB bo 4 bs).map fun r => (.uint r.1, r.2)
    | .float => (readUnsignedB bo 4 bs).map fun r => (.float r.1, r.2)
    | .double => (readUnsignedB bo 8 bs).map fun r => (.double r.1, r.2)
  | .list it et =>
    (readBinaryCount bo it bs).bind fun r => readBinaryListProp bo et r.1 r.2

/-- Property loop of `__read_binary_element`. -/
def readBinaryElementGo (bo : ByteOrder) : List PropertyDef → DefaultElement →
    List Nat → Except String (DefaultElement × List Nat)
  | [], el, bs => .ok (el, bs)
  | p :: ps, el, bs =>
    (read_binary_property bo p.data_type bs).bind fun r =>
      readBinaryElementGo bo ps (set_property el p.name r.1) r.2

/-- Rust `__read_binary_element`. -/
def read_binary_element (bo : ByteOrder) (edef : ElementDef) (bs : List Nat) :
    Except String (DefaultElement × List Nat) :=
  readBinaryElementGo bo edef.properties [] bs

/-- Rust `__read_binary_payload_for_element`: `count` records. -/
def readBinaryPayloadForElement (bo : ByteOrder) (edef : ElementDef) :
    Nat → List Nat → Except String (List DefaultElement × List Nat)
  | 0, bs => .ok ([], bs)
  | n + 1, bs =>
    (read_binary_element bo edef bs).bind fun r =>
      (readBinaryPayloadForElement bo edef n r.2).map fun r2 => (r.1 :: r2.1, r2.2)

/-- The binary arms of `__read_payload`: per declared element read
`element.count` records and insert them under the element's name. -/
def readPayloadBinaryGo (bo : ByteOrder) : List ElementDef → Payload →
    List Nat → Except String (Payload × List Nat)
  | [], pl, bs => .ok (pl, bs)
  | e :: es, pl, bs =>
    (readBinaryPayloadForElement bo e e.count bs).bind fun r =>
      readPayloadBinaryGo bo es (keyInsert pl e.name r.1) r.2

def read_payload_binary (bo : ByteOrder) (els : List ElementDef) (bs : List Nat) :
    Except String (Payload × List Nat) :=
  readPayloadBinaryGo bo els [] bs

/-! ## Writer (src/writer/mod.rs) -/

/-- Result of a writer call: Rust `io::Result` plus the possibility of a
panic (`write_ascii_element` unwraps, `write_payload` indexes the element
map). -/
inductive WRes (α : Type)
  | panicked
  | error (e : String)
  | ok (v : α)
  deriving DecidableEq, Repr

def WRes.bind {α β : Type} : WRes α → (α → WRes β) → WRes β
  | .panicked, _ => .panicked
  | .error e, _ => .error e
  | .ok v, f => f v

def WRes.map {α β : Type} (f : α → β) : WRes α → WRes β
  | .panicked => .panicked
  | .error e => .error e
  | .ok v => .ok (f v)

def exceptToW {α : Type} : Except String α → WRes α
  | .ok v => .ok v
  | .error e => .error e

/-- The `get_prop!` macro: a missing property aborts with an error. -/
def get_propW {α β : Type} (o : Option α) (f : α → β) : WRes β :=
  match o with
  | none => .error "No property available for given key."
  | some x => .ok (f x)

def get_propE {α β : Type} (o : Option α) (f : α → β) : Except String β :=
  match o with
  | none => .error "No property available for given key."
  | some x => .ok (f x)

/-! ### Ascii encoding -/

/-- Rust `ToString`/`Display` of the scalar payload values.  Lean `toString` on
`Int`/`Nat` coincides with Rust `Display` for the integer types; the
shortest-roundtrip float `Display` of the standard library is abstracted as
the decimal form of the bit pattern (no theorem observes it). -/
def displayFloatBits (b : Nat) : String := toString b

/-- Rust `write_ascii_list`: the length taken from the in-memory list, then the
elements, space separated. -/
def write_ascii_list {α : Type} (disp : α → String) (l : List α) : String :=
  toString l.length ++ String.join (l.map fun v => " " ++ disp v)

/-- Rust `write_ascii_property`. -/
def write_ascii_property (el : DefaultElement) (pd : PropertyDef) : WRes String :=
  match pd.data_type with
  | .scalar st =>
    match st with
    | .char => get_propW (get_char el pd.name) toString
    | .uchar => get_propW (get_uchar el pd.name) toString
    | .short => get_propW (get_short el pd.name) toString
    | .ushort => get_propW (get_ushort el pd.name) toString
    | .int => get_propW (get_int el pd.name) toString
    | .uint => get_propW (get_uint el pd.name) toString
    | .float => get_propW (get_float el pd.name) displayFloatBits
    | .double => get_propW (get_double el pd.name) displayFloatBits
  | .list _ st =>
    match st with
    | .char => get_propW (get_list_char el pd.name) (write_ascii_list toString)
    | .uchar => get_propW (get_list_uchar el pd.name) (write_ascii_list toString)
    | .short => get_propW (get_list_short el pd.name) (write_ascii_list toString)
    | .ushort => get_propW (get_list_ushort el pd.name) (write_ascii_list toString)
    | .int => get_propW (get_list_int el pd.name) (write_ascii_list toString)
    | .uint => get_propW (get_list_uint el pd.name) (write_ascii_list toString)
    | .float => get_propW (get_list_float el pd.name) (write_ascii_list displayFloatBits)
    | .double => get_propW (get_list_double el pd.name) (write_ascii_list displayFloatBits)

/-- The `loop` of `write_ascii_element`: each iteration first writes a single
space, then stops if the property iterator is exhausted (hence the trailing
space before the newline). -/
def asciiElementLoop (el : DefaultElement) : List PropertyDef → WRes String
  | [] => .ok " "
  | p :: rest =>
    (write_ascii_property el p).bind fun s =>
      (asciiElementLoop el rest).map fun t => " " ++ s ++ t

/-- Rust `write_ascii_element`: unwraps the FIRST property of the element
definition (panics when the property map is empty), then loops over the
remaining ones, finally writes the newline. -/
def write_ascii_element (el : DefaultElement) (edef : ElementDef) : WRes String :=
  match edef.properties with
  | [] => .panicked
  | p :: rest =>
    (write_ascii_property el p).bind fun s =>
      (asciiElementLoop el rest).map fun t => s ++ t ++ "\n"

/-! ### Binary encoding -/

/-- Little-endian byte split of `v` (truncating to `w` bytes, like the `as`
casts in the source). -/
def natBytesLE : Nat → Nat → List Nat
  | 0, _ => []
  | w + 1, v => (v % 256) :: natBytesLE w (v / 256)

def natBytes (bo : ByteOrder) (w : Nat) (v : Nat) : List Nat :=
  match bo with
  | .le => natBytesLE w v
  | .be => (natBytesLE w v).reverse

/-- byteorder `write_iN`: two's complement bytes. -/
def intBytes (bo : ByteOrder) (w : Nat) (x : Int) : List Nat :=
  natBytes bo w (x.emod (2 ^ (8 * w))).toNat

/-- The list-length write of `__write_binary_element`: `vec_len` is
`element_def.count` (the schema's record count!) narrowed `as` the index
kind; float and double index kinds are rejected. -/
def writeBinaryIndexCount (bo : ByteOrder) (it : ScalarType) (count : Nat) :
    Except String (List Nat) :=
  match it with
  | .char => .ok (natBytes bo 1 count)
  | .uchar => .ok (natBytes bo 1 count)
  | .short => .ok (natBytes bo 2 count)
  | .ushort => .ok (natBytes bo 2 count)
  | .int => .ok (natBytes bo 4 count)
  | .uint => .ok (natBytes bo 4 count)
  | .float => .error "Index of list must be an integer type, float declared in PropertyType."
  | .double => .error "Index of list must be an integer type, double declared in PropertyType."

/-- The element-list write of `__write_binary_element` (via
`write_binary_list`): every element of the in-memory list is written. -/
def writeBinaryListBytes (bo : ByteOrder) (et : ScalarType) (el : DefaultElement)
    (k : String) : Except String (List Nat) :=
  match et with
  | .char => get_propE (get_list_char el k) (fun l => (l.map (intBytes bo 1)).flatten)
  | .uchar => get_propE (get_list_uchar el k) (fun l => (l.map (natBytes bo 1)).flatten)
  | .short => get_propE (get_list_short el k) (fun l => (l.map (intBytes bo 2)).flatten)
  | .ushort => get_propE (get_list_ushort el k) (fun l => (l.map (natBytes bo 2)).flatten)
  | .int => get_propE (get_list_int el k) (fun l => (l.map (intBytes bo 4)).flatten)
  | .uint => get_propE (get_list_uint el k) (fun l => (l.map (natBytes bo 4)).flatten)
  | .float => get_propE (get_list_float el k) (fun l => (l.map (natBytes bo 4)).flatten)
  | .double => get_propE (get_list_double el k) (fun l => (l.map (natBytes bo 8)).flatten)

/-- One scalar write of `__write_binary_element`. -/
def writeBinaryScalarBytes (bo : ByteOrder) (st : ScalarType) (el : DefaultElement)
    (k : String) : Except String (List Nat) :=
  match st with
  | .char => get_propE (get_char el k) (intBytes bo 1)
  | .uchar => get_propE (get_uchar el k) (natBytes bo 1)
  | .short => get_propE (get_short el k) (intBytes bo 2)
  | .ushort => get_propE (get_ushort el k) (natBytes bo 2)
  | .int => get_propE (get_int el k) (intBytes bo 4)
  | .uint => get_propE (get_uint el k) (natBytes bo 4)
  | .float => get_propE (get_float el k) (natBytes bo 4)
  | .double => get_propE (get_double el k) (natBytes bo 8)

/-- Property loop of `__write_binary_element`; `count` is the enclosing
`element_def.count`, which the source uses as `vec_len` for list lengths. -/
def writeBinaryProps (bo : ByteOrder) (el : DefaultElement) (count : Nat) :
    List PropertyDef → Except String (List Nat)
  | [] => .ok []
  | p :: rest =>
    match p.data_type with
    | .scalar st =>
      (writeBinaryScalarBytes bo st el p.name).bind fun b =>
        (writeBinaryProps bo el count rest).map fun t => b ++ t
    | .list it et =>
      (writeBinaryIndexCount bo it count).bind fun ib =>
        (writeBinaryListBytes bo et el p.name).bind fun lb =>
          (writeBinaryProps bo el count rest).map fun t => ib ++ lb ++ t

/-- Rust `__write_binary_element`. -/
def write_binary_element (bo : ByteOrder) (el : DefaultElement)
    (edef : ElementDef) : Except String (List Nat) :=
  writeBinaryProps bo el edef.count edef.properties

/-! ### Header writing -/

/-- Rust `write_scalar_type` (canonical keyword per kind). -/
def write_scalar_type (st : ScalarType) : String :=
  match st with
  | .char => "char"
  | .uchar => "uchar"
  | .short => "short"
  | .ushort => "ushort"
  | .int => "int"
  | .uint => "uint"
  | .float => "float"
  | .double => "double"

/-- Rust `write_property_type`: list index kinds float and double are rejected
when emitting the property's header line. -/
def write_property_type (dt : PropertyType) : Except String String :=
  match dt with
  | .scalar st => .ok (write_scalar_type st)
  | .list it et =>
    match it with
    | .float => .error "List index can not be of type float."
    | .double => .error "List index can not be of type double."
    | _ => .ok ("list " ++ write_scalar_type it ++ " " ++ write_scalar_type et)

def encodingKeyword (e : Encoding) : String :=
  match e with
  | .ascii => "ascii"
  | .binaryBigEndian => "binary_big_endian"
  | .binaryLittleEndian => "binary_little_endian"

/-- Rust `write_line_property_definition`. -/
def writeLinePropertyDefinition (p : PropertyDef) : Except String String :=
  (write_property_type p.data_type).map fun s => "property " ++ s ++ " " ++ p.name ++ "\n"

def writePropertyLines : List PropertyDef → Except String String
  | [] => .ok ""
  | p :: ps =>
    (writeLinePropertyDefinition p).bind fun s =>
      (writePropertyLines ps).map fun t => s ++ t

/-- Rust `write_element_definition`: the element line followed by its property
lines. -/
def write_element_definition (e : ElementDef) : Except String String :=
  (writePropertyLines e.properties).map fun props =>
    "element " ++ e.name ++ " " ++ toString e.count ++ "\n" ++ props

def writeElementDefinitions : List ElementDef → Except String String
  | [] => .ok ""
  | e :: es =>
    (write_element_definition e).bind fun s =>
      (writeElementDefinitions es).map fun t => s ++ t

/-- Rust `write_header`: magic number, format line, comments, obj_infos, element
definitions, `end_header`. -/
def write_header (h : Header) : Except String String :=
  (writeElementDefinitions h.elements).map fun els =>
    "ply\n"
      ++ "format " ++ encodingKeyword h.encoding ++ " "
      ++ toString h.version.major ++ "." ++ toString h.version.minor ++ "\n"
      ++ String.join (h.comments.map fun c => "comment " ++ c ++ "\n")
      ++ String.join (h.obj_infos.map fun oi => "obj_info " ++ oi ++ "\n")
      ++ els
      ++ "end_header\n"

/-! ### Payload writing and orchestration -/

/-- UTF-8 bytes of the (ASCII) strings produced by the writer. -/
def strBytes (s : String) : List Nat := s.data.map Char.toNat

def writeAsciiElements (edef : ElementDef) : List DefaultElement → WRes (List Nat)
  | [] => .ok []
  | el :: els =>
    (write_ascii_element el edef).bind fun s =>
      (writeAsciiElements edef els).map fun t => strBytes s ++ t

def writeBinaryElements (bo : ByteOrder) (edef : ElementDef) :
    List DefaultElement → WRes (List Nat)
  | [] => .ok []
  | el :: els =>
    (exceptToW (write_binary_element bo el edef)).bind fun b =>
      (writeBinaryElements bo edef els).map fun t => b ++ t

/-- Rust `write_payload_of_element`: dispatch on the header's encoding. -/
def write_payload_of_element (element_list : List DefaultElement)
    (edef : ElementDef) (h : Header) : WRes (List Nat) :=
  match h.encoding with
  | .ascii => writeAsciiElements edef element_list
  | .binaryBigEndian => writeBinaryElements .be edef element_list
  | .binaryLittleEndian => writeBinaryElements .le edef element_list

/-- Rust `write_payload`: for each payload entry look up its element definition
(`&element_defs[k]` panics when the key is missing) and write the group. -/
def writePayloadGo (h : Header) : Payload → WRes (List Nat)
  | [] => .ok []
  | (k, element_list) :: rest =>
    match lookupElem h.elements k with
    | none => .panicked
    | some edef =>
      (write_payload_of_element element_list edef h).bind fun b =>
        (writePayloadGo h rest).map fun t => b ++ t

def write_payload (pl : Payload) (h : Header) : WRes (List Nat) :=
  writePayloadGo h pl

/-! ## Consistency checker (src/ply/consistency.rs) -/

def has_white_space (s : String) : Bool := s.data.contains ' ' || s.data.contains '\t'

def has_line_break (s : String) : Bool := s.data.contains '\n' || s.data.contains '\r'

/-- Phase 1 of `make_consistent`: give every declared element a (possibly
empty) payload entry (`LinkedHashMap::insert` on a fresh key appends). -/
def insertMissing (els : List ElementDef) (pl : Payload) : Payload :=
  els.foldl (fun pl e => if (lookupKM pl e.name).isSome then pl else pl ++ [(e.name, [])]) pl

/-- Set the `count` of the element stored under name `k`; `none` if there is
no declaration for it. -/
def updateCount : List ElementDef → String → Nat → Option (List ElementDef)
  | [], _, _ => none
  | e :: rest, k, n =>
    if e.name = k then some ({ e with count := n } :: rest)
    else (updateCount rest k n).map fun r => e :: r

/-- Phase 2 of `make_consistent`, with the in-place mutation made explicit:
walk the payload entries, rejecting an empty or undeclared element name and
setting each declaration's `count` to the entry's actual length.  On an error
the counts already set stay set, as in the source. -/
def setCountsSt : List (String × List DefaultElement) → List ElementDef →
    List ElementDef × Option String
  | [], els => (els, none)
  | (pk, pe) :: rest, els =>
    if pk = "" then (els, some "Element cannot have empty name.")
    else
      match updateCount els pk pe.length with
      | none => (els, some "No decleration for element found.")
      | some els' => setCountsSt rest els'

def findLineBreak (ss : List String) : Option String :=
  ss.find? fun s => has_line_break s

/-- Phases 3-5 of `make_consistent`: the pure name/line-break checks, first
error wins, in source order (obj_infos, comments, element and property
names). -/
def headerChecks (h : Header) : Option String :=
  match findLineBreak h.obj_infos with
  | some oi => some ("Objection information should not contain any line breaks: " ++ oi)
  | none =>
    match findLineBreak h.comments with
    | some c => some ("Comment should not contain any line breaks: " ++ c)
    | none =>
      h.elements.firstM fun e =>
        if has_line_break e.name then
          some ("Name of element should not contain any line breaks: " ++ e.name)
        else if has_white_space e.name then
          some ("Name of element should not contain any white spaces: " ++ e.name)
        else
          e.properties.firstM fun p =>
            if has_line_break p.name then
              some ("Name of property should not contain any line breaks: " ++ p.name)
            else if has_white_space p.name then
              some ("Name of property should not contain any spaces: " ++ p.name)
            else none

/-- Rust `Ply::make_consistent`, with the in-place mutation of the receiver made
explicit: the returned `Ply` is the state of the object after the call, the
`Option String` is `none` on `Ok(())` and carries the `ConsistencyError`
otherwise. -/
def make_consistent (p : Ply) : Ply × Option String :=
  let pl := insertMissing p.header.elements p.payload
  let r := setCountsSt pl p.header.elements
  let p' : Ply := { header := { p.header with elements := r.1 }, payload := pl }
  match r.2 with
  | some e => (p', some e)
  | none =>
    match headerChecks p'.header with
    | some e => (p', some e)
    | none => (p', none)

/-- Rust `write_ply_unchecked`: header then payload. -/
def write_ply_unchecked (p : Ply) : WRes (List Nat) :=
  (exceptToW (write_header p.header)).bind fun hb =>
    (write_payload p.payload p.header).map fun pb => strBytes hb ++ pb

/-- Rust `write_ply`: run the consistency check (mutating the argument), then
write. -/
def write_ply (p : Ply) : WRes (List Nat) :=
  match make_consistent p with
  | (_, some e) => .error ("The given ply isn't consistent: " ++ e)
  | (p', none) => write_ply_unchecked p'

/-! ## Header assembler (src/parser/mod.rs, `__read_header`) -/

/-- Rust `Line` (src/parser/ply_grammar.rs): the result of parsing one header
line. -/
inductive Line
  | magicNumber
  | format (e : Encoding) (v : Version)
  | comment (c : String)
  | objInfo (o : String)
  | element (e : ElementDef)
  | property (p : PropertyDef)
  | endHeader
  deriving DecidableEq, Repr

def Line.isFormat : Line → Bool
  | .format _ _ => true
  | _ => false

/-- The `'readlines` loop of `__read_header`, over the stream of parsed
lines.  An exhausted stream corresponds to `read_line` returning an empty
string, which fails the grammar, hence an error.  `end_header` leaves the
loop; only then is a missing format line reported. -/
def readHeaderLoop : List Line → Option (Encoding × Version) → List String →
    List String → List ElementDef → Except String Header
  | [], _, _, _, _ => .error "Couldn't parse line."
  | .magicNumber :: _, _, _, _, _ => .error "Unexpected ply found."
  | .format e v :: rest, fv, ois, cs, els =>
    (match fv with
     | none => readHeaderLoop rest (some (e, v)) ois cs els
     | some (e0, v0) =>
       if (e0, v0) = (e, v) then readHeaderLoop rest (some (e0, v0)) ois cs els
       else .error "Found contradicting format definition.")
  | .objInfo o :: rest, fv, ois, cs, els => readHeaderLoop rest fv (ois ++ [o]) cs els
  | .comment c :: rest, fv, ois, cs, els => readHeaderLoop rest fv ois (cs ++ [c]) els
  | .element e :: rest, fv, ois, cs, els =>
    readHeaderLoop rest fv ois cs (keyAddElem els e)
  | .property p :: rest, fv, ois, cs, els =>
    (match els.getLast? with
     | none => .error "Property found without preceding element."
     | some last =>
       readHeaderLoop rest fv ois cs
         (els.dropLast ++ [{ last with properties := keyAddProp last.properties p }]))
  | .endHeader :: _, fv, ois, cs, els =>
    match fv with
    | none => .error "No format line found."
    | some (e, v) =>
      .ok { encoding := e, version := v, obj_infos := ois, elements := els, comments := cs }

/-- Rust `__read_header`: the first line must be the magic number, then the loop
assembles the header. -/
def read_header (lines : List Line) : Except String Header :=
  match lines with
  | [] => .error "Expected magic number."
  | .magicNumber :: rest => readHeaderLoop rest none [] [] []
  | _ :: _ => .error "Expected magic number."

/-! ## Concrete instances used by the theorems below -/

/-- A list property with index kind `uchar`, inside an element whose schema
`count` (2) differs from the record's actual list length (3). -/
def edefC1 : ElementDef := ⟨"e", 2, [⟨"x", .list .uchar .int⟩]⟩

def recC1 : DefaultElement := [("x", .listInt [7, 8, 9])]

def bytesC1 : List Nat := [2, 7, 0, 0, 0, 8, 0, 0, 0, 9, 0, 0, 0]

/-- One element with one record whose list has 3 entries, to be encoded in
binary little endian. -/
def c2ply : Ply :=
  { header := { encoding := .binaryLittleEndian, version := ⟨1, 0⟩, obj_infos := [],
                elements := [⟨"e", 0, [⟨"x", .list .uchar .char⟩]⟩], comments := [] },
    payload := [("e", [[("x", .listChar [5, 6, 7])]])] }

/-- The state of `c2ply` after its (successful) consistency check. -/
def c2plyC : Ply := (make_consistent c2ply).1

/-- An ascii `Ply` containing an element (`a`) with an empty property map and
one record, plus an element (`b`) declaring a float-indexed list property. -/
def c9ply : Ply :=
  { header := { encoding := .ascii, version := ⟨1, 0⟩, obj_infos := [],
                elements := [⟨"a", 0, []⟩, ⟨"b", 0, [⟨"l", .list .float .char⟩]⟩],
                comments := [] },
    payload := [("a", [[]])] }

/-- An ascii `Ply` whose only element has an empty property map and one
record. -/
def c9okPly : Ply :=
  { header := { encoding := .ascii, version := ⟨1, 0⟩, obj_infos := [],
                elements := [⟨"a", 0, []⟩], comments := [] },
    payload := [("a", [[]])] }

/-- A length token of 256 followed by 256 zero tokens: 256 does not fit the
declared `uchar` index kind. -/
def c6tokens : List String := "256" :: List.replicate 256 "0"

/-- Two scalar properties, for exercising the ascii record decoder. -/
def edefC10 : ElementDef := ⟨"p", 1, [⟨"a", .scalar .char⟩, ⟨"b", .scalar .uchar⟩]⟩

/-! # Helper lemmas -/

theorem except_map_ok {α β : Type} (f : α → β) (x : Except String α) (y : β) :
    x.map f = .ok y ↔ ∃ a, x = .ok a ∧ f a = y := by
  cases x <;> simp [Except.map]

theorem except_map_error {α β : Type} (f : α → β) (x : Except String α) (e : String) :
    x.map f = .error e ↔ x = .error e := by
  cases x <;> simp [Except.map]

theorem except_bind_ok {α β : Type} (f : α → Except String β) (x : Except String α)
    (y : β) : x.bind f = .ok y ↔ ∃ a, x = .ok a ∧ f a = .ok y := by
  cases x <;> simp [Except.bind]

theorem except_not_ok {α : Type} (r : Except String α) (h : ∀ v, r ≠ .ok v) :
    ∃ e, r = .error e := by
  cases r with
  | error e => exact ⟨e, rfl⟩
  | ok v => exact absurd rfl (h v)

/-! # Theorems for the claims -/

/-- C1 (code_bug evidence): encoding the record `recC1` (a list `[7, 8, 9]`
of length 3) for `edefC1` (schema `count` = 2), the binary writer emits 2 as
the leading list-count value — the schema's per-element record count — and
then all 3 list elements, instead of the actual in-memory list length 3. -/
theorem c1_binary_list_count_is_schema_count :
    write_binary_element .le recC1 edefC1 = .ok bytesC1 ∧
    bytesC1.head? = some edefC1.count ∧
    (get_list_int recC1 "x").map List.length = some 3 ∧
    edefC1.count = 2 ∧ edefC1.count ≠ 3 := by decide

/-- C2 (code_bug evidence): `c2ply` passes `make_consistent`, its binary
little-endian payload encoding is `[1, 5, 6, 7]` (count byte 1 from the
schema record count, then all three list bytes), and decoding those bytes
yields a payload whose list is `[5]` — not equal to the payload that was
written, so decode (encode x) differs from x. -/
theorem c2_roundtrip_fails_for_binary_list :
    (make_consistent c2ply).2 = none ∧
    write_payload c2plyC.payload c2plyC.header = .ok [1, 5, 6, 7] ∧
    read_payload_binary .le c2plyC.header.elements [1, 5, 6, 7] =
      .ok ([("e", [[("x", Property.listChar [5])]])], [6, 7]) ∧
    [("e", [[("x", Property.listChar [5])]])] ≠ c2plyC.payload := by decide

/-- C8: the 4 bytes `01 00 00 00` decoded as a 32-bit signed int scalar give
1 under little-endian and 16777216 under big-endian decoding. -/
theorem c8_int32_byte_order_decode :
    read_binary_property .le (.scalar .int) [1, 0, 0, 0] = .ok (.int 1, []) ∧
    read_binary_property .be (.scalar .int) [1, 0, 0, 0] = .ok (.int 16777216, []) := by
  decide

/-- C6 counterexample: with declared index kind `uchar`, the length token
`256` does NOT fit a `uchar` (`parse_u8 "256" = none`), yet the ascii decoder
succeeds and consumes 256 elements — the length token is not parsed as the
declared index kind. -/
theorem c6_counterexample_index_kind_ignored :
    read_ascii_property (.list .uchar .char) c6tokens =
      .ok (.listChar (List.replicate 256 0), []) ∧
    parse_u8 "256" = none := by decide

/-- C9 counterexample: `c9ply` is consistent, ascii encoded, and contains an
element (`a`) with an empty property map and one record — yet `write_ply`
returns an error (raised while writing element `b`'s float-indexed list
property line in the header) rather than panicking. -/
theorem c9_counterexample_error_not_panic :
    (make_consistent c9ply).2 = none ∧
    (make_consistent c9ply).1.header.encoding = .ascii ∧
    lookupElem (make_consistent c9ply).1.header.elements "a" = some ⟨"a", 1, []⟩ ∧
    lookupKM (make_consistent c9ply).1.payload "a" = some [[]] ∧
    write_ply c9ply = .error "List index can not be of type float." := by decide

theorem readBinaryCount_float_err (bo : ByteOrder) (it : ScalarType)
    (bs : List Nat) (hit : it = .float ∨ it = .double) :
    ∃ e, readBinaryCount bo it bs = .error e := by
  rcases hit with h | h <;> subst h <;> exact ⟨_, rfl⟩

theorem read_binary_property_float_index_err (bo : ByteOrder) (it et : ScalarType)
    (bs : List Nat) (hit : it = .float ∨ it = .double) :
    ∃ e, read_binary_property bo (.list it et) bs = .error e := by
  obtain ⟨e, he⟩ := readBinaryCount_float_err bo it bs hit
  exact ⟨e, by simp [read_binary_property, he, Except.bind]⟩

theorem readBinaryElementGo_float_index_err (bo : ByteOrder) (it et : ScalarType)
    (hit : it = .float ∨ it = .double) :
    ∀ (ps : List PropertyDef) (el : DefaultElement) (bs : List Nat),
      (∃ p, p ∈ ps ∧ p.data_type = .list it et) →
      ∃ e, readBinaryElementGo bo ps el bs = .error e := by
  intro ps
  induction ps with
  | nil => rintro el bs ⟨p, hp, -⟩; simp at hp
  | cons p0 ps ih =>
    rintro el bs ⟨p, hp, hdt⟩
    rcases List.mem_cons.mp hp with rfl | hmem
    · obtain ⟨e, he⟩ := read_binary_property_float_index_err bo it et bs hit
      rw [← hdt] at he
      exact ⟨e, by simp [readBinaryElementGo, he, Except.bind]⟩
    · cases hr : read_binary_property bo p0.data_type bs with
      | error e => exact ⟨e, by simp [readBinaryElementGo, hr, Except.bind]⟩
      | ok r =>
        obtain ⟨e, he⟩ := ih (set_property el p0.name r.1) r.2 ⟨p, hmem, hdt⟩
        exact ⟨e, by simp [readBinaryElementGo, hr, Except.bind, Except.map, he]⟩

theorem writeBinaryIndexCount_float_err (bo : ByteOrder) (it : ScalarType)
    (count : Nat) (hit : it = .float ∨ it = .double) :
    ∃ e, writeBinaryIndexCount bo it count = .error e := by
  rcases hit with h | h <;> subst h <;> exact ⟨_, rfl⟩

theorem writeBinaryProps_float_index_err (bo : ByteOrder) (it et : ScalarType)
    (el : DefaultElement) (count : Nat) (hit : it = .float ∨ it = .double) :
    ∀ ps : List PropertyDef,
      (∃ p, p ∈ ps ∧ p.data_type = .list it et) →
      ∃ e, writeBinaryProps bo el count ps = .error e := by
  intro ps
  induction ps with
  | nil => rintro ⟨p, hp, -⟩; simp at hp
  | cons p0 ps ih =>
    rintro ⟨p, hp, hdt⟩
    rcases List.mem_cons.mp hp with rfl | hmem
    · obtain ⟨e, he⟩ := writeBinaryIndexCount_float_err bo it count hit
      exact ⟨e, by simp [writeBinaryProps, hdt, he, Except.bind]⟩
    · cases hdt0 : p0.data_type with
      | scalar st =>
        cases hs : writeBinaryScalarBytes bo st el p0.name with
        | error e => exact ⟨e, by simp [writeBinaryProps, hdt0, hs, Except.bind]⟩
        | ok b =>
          obtain ⟨e, he⟩ := ih ⟨p, hmem, hdt⟩
          exact ⟨e, by simp [writeBinaryProps, hdt0, hs, Except.bind, Except.map, he]⟩
      | list it0 et0 =>
        cases hi : writeBinaryIndexCount bo it0 count with
        | error e => exact ⟨e, by simp [writeBinaryProps, hdt0, hi, Except.bind]⟩
        | ok ib =>
          cases hl : writeBinaryListBytes bo et0 el p0.name with
          | error e => exact ⟨e, by simp [writeBinaryProps, hdt0, hi, hl, Except.bind]⟩
          | ok lb =>
            obtain ⟨e, he⟩ := ih ⟨p, hmem, hdt⟩
            exact ⟨e, by simp [writeBinaryProps, hdt0, hi, hl, Except.bind, Except.map, he]⟩

/-- C4: a list property whose declared index kind is float or double is
rejected everywhere: the binary decoder errors on the property (and hence on
any record of an element containing it), the writer errors when emitting the
property's header line (`write_property_type`), and the binary encoder errors
on any record of an element containing it.  No value is produced in any of
these cases. -/
theorem c4_float_double_index_rejected (bo : ByteOrder) (it et : ScalarType)
    (bs : List Nat) (el : DefaultElement) (edef : ElementDef)
    (hit : it = .float ∨ it = .double) :
    (∃ e, read_binary_property bo (.list it et) bs = .error e) ∧
    (∃ e, write_property_type (.list it et) = .error e) ∧
    ((∃ p, p ∈ edef.properties ∧ p.data_type = .list it et) →
      (∃ e, read_binary_element bo edef bs = .error e) ∧
      (∃ e, write_binary_element bo el edef = .error e)) := by
  refine ⟨read_binary_property_float_index_err bo it et bs hit, ?_, fun hmem => ⟨?_, ?_⟩⟩
  · rcases hit with h | h <;> subst h <;> exact ⟨_, rfl⟩
  · exact readBinaryElementGo_float_index_err bo it et hit edef.properties [] bs hmem
  · exact writeBinaryProps_float_index_err bo it et el edef.count hit edef.properties hmem

/-- Witness for C4 at a concrete input. -/
theorem c4_float_double_index_rejected_witness :
    (∃ e, read_binary_property .le (.list .float .char) [0, 0, 0, 0] = .error e) ∧
    (∃ e, write_property_type (.list .float .char) = .error e) ∧
    (∃ e, read_binary_element .le ⟨"f", 1, [⟨"l", .list .float .char⟩]⟩ [0, 0, 0, 0] = .error e) ∧
    (∃ e, write_binary_element .le [] ⟨"f", 1, [⟨"l", .list .float .char⟩]⟩ = .error e) := by
  have h := c4_float_double_index_rejected .le .float .char [0, 0, 0, 0] []
    ⟨"f", 1, [⟨"l", .list .float .char⟩]⟩ (Or.inl rfl)
  have hm := h.2.2 ⟨⟨"l", .list .float .char⟩, by simp, rfl⟩
  exact ⟨h.1, h.2.1, hm.1, hm.2⟩

theorem readHeaderLoop_no_format :
    ∀ (lines : List Line), (∀ l ∈ lines, l.isFormat = false) →
      ∀ (ois cs : List String) (els : List ElementDef),
        ∃ m, readHeaderLoop lines none ois cs els = .error m := by
  intro lines
  induction lines with
  | nil => exact fun _ ois cs els => ⟨_, rfl⟩
  | cons l rest ih =>
    intro h ois cs els
    have hrest : ∀ l ∈ rest, l.isFormat = false := fun l hl => h l (List.mem_cons_of_mem _ hl)
    cases l with
    | magicNumber => exact ⟨_, rfl⟩
    | format e v => simpa [Line.isFormat] using h _ (List.mem_cons_self _ _)
    | comment c => simpa [readHeaderLoop] using ih hrest ois (cs ++ [c]) els
    | objInfo o => simpa [readHeaderLoop] using ih hrest (ois ++ [o]) cs els
    | element e => simpa [readHeaderLoop] using ih hrest ois cs (keyAddElem els e)
    | property p =>
      cases hl : els.getLast? with
      | none =>
        exact ⟨"Property found without preceding element.", by simp [readHeaderLoop, hl]⟩
      | some last =>
        obtain ⟨m, hm⟩ := ih hrest ois cs
          (els.dropLast ++ [{ last with properties := keyAddProp last.properties p }])
        exact ⟨m, by simp [readHeaderLoop, hl, hm]⟩
    | endHeader => exact ⟨_, rfl⟩

/-- C5: during header assembly the first format line fixes encoding and
version; a later format line that differs from the captured pair is a
contradiction error, while an exactly matching one is accepted (assembly
continues unchanged); and a line stream that never carries a format line
makes `read_header` fail. -/
theorem c5_format_capture_and_contradiction (e e' : Encoding) (v v' : Version)
    (rest lines : List Line) (ois cs : List String) (els : List ElementDef) :
    ((e', v') ≠ (e, v) →
      readHeaderLoop (.format e' v' :: rest) (some (e, v)) ois cs els =
        .error "Found contradicting format definition.") ∧
    (readHeaderLoop (.format e v :: rest) (some (e, v)) ois cs els =
      readHeaderLoop rest (some (e, v)) ois cs els) ∧
    (readHeaderLoop (.format e v :: rest) none ois cs els =
      readHeaderLoop rest (some (e, v)) ois cs els) ∧
    ((∀ l ∈ lines, l.isFormat = false) →
      ∃ m, read_header (.magicNumber :: lines) = .error m) := by
  refine ⟨fun hne => ?_, ?_, rfl, fun hnf => ?_⟩
  · have : ¬ ((e, v) = (e', v')) := fun hc => hne hc.symm
    simp [readHeaderLoop, this]
  · simp [readHeaderLoop]
  · simpa [read_header] using readHeaderLoop_no_format lines hnf [] [] []

/-- Witness for C5 at concrete inputs. -/
theorem c5_format_capture_and_contradiction_witness :
    (readHeaderLoop [.format .binaryBigEndian ⟨1, 0⟩] (some (.ascii, ⟨1, 0⟩)) [] [] [] =
      .error "Found contradicting format definition.") ∧
    (readHeaderLoop [.format .ascii ⟨1, 0⟩, .endHeader] (some (.ascii, ⟨1, 0⟩)) [] [] [] =
      readHeaderLoop [.endHeader] (some (.ascii, ⟨1, 0⟩)) [] [] []) ∧
    (∃ m, read_header [.magicNumber, .comment "hi", .endHeader] = .error m) := by
  have h := c5_format_capture_and_contradiction .ascii .binaryBigEndian ⟨1, 0⟩ ⟨1, 0⟩
    [] [.comment "hi", .endHeader] [] [] []
  refine ⟨h.1 (by decide), ?_, h.2.2.2 (by decide)⟩
  exact (c5_format_capture_and_contradiction .ascii .ascii ⟨1, 0⟩ ⟨1, 0⟩
    [.endHeader] [] [] [] []).2.1

theorem readAsciiListG_ok {α : Type} (p : String → Option α) :
    ∀ (n : Nat) (ts : List String) (l : List α) (rest : List String),
      readAsciiListG p n ts = .ok (l, rest) →
      ts = ts.take n ++ rest ∧ n ≤ ts.length ∧ l.length = n := by
  intro n
  induction n with
  | zero =>
    intro ts l rest h
    simp [readAsciiListG] at h
    obtain ⟨rfl, rfl⟩ := h
    simp
  | succ n ih =>
    intro ts l rest h
    cases ts with
    | nil => simp [readAsciiListG] at h
    | cons t ts' =>
      simp only [readAsciiListG, except_bind_ok, except_map_ok] at h
      obtain ⟨v, hv, ⟨l', r'⟩, hG, heq⟩ := h
      cases heq
      obtain ⟨h1, h2, h3⟩ := ih ts' l' r' hG
      refine ⟨?_, by simpa using h2, by simp [h3]⟩
      simpa [List.take] using congrArg (t :: ·) h1

theorem readAsciiListG_short {α : Type} (p : String → Option α) :
    ∀ (n : Nat) (ts : List String), ts.length < n →
      ∃ e, readAsciiListG p n ts = .error e := by
  intro n
  induction n with
  | zero => intro ts h; simp at h
  | succ n ih =>
    intro ts h
    cases ts with
    | nil => exact ⟨_, rfl⟩
    | cons t ts' =>
      cases hv : parseScalarE p t with
      | error e => exact ⟨e, by simp [readAsciiListG, hv, Except.bind]⟩
      | ok v =>
        obtain ⟨e, he⟩ := ih ts' (by simpa using h)
        exact ⟨e, by simp [readAsciiListG, hv, he, Except.bind, Except.map]⟩

theorem readAsciiListG_append {α : Type} (p : String → Option α) :
    ∀ (n : Nat) (ts : List String) (l : List α) (rest extra : List String),
      readAsciiListG p n ts = .ok (l, rest) →
      readAsciiListG p n (ts ++ extra) = .ok (l, rest ++ extra) := by
  intro n
  induction n with
  | zero =>
    intro ts l rest extra h
    simp [readAsciiListG] at h
    obtain ⟨rfl, rfl⟩ := h
    simp [readAsciiListG]
  | succ n ih =>
    intro ts l rest extra h
    cases ts with
    | nil => simp [readAsciiListG] at h
    | cons t ts' =>
      simp only [readAsciiListG, except_bind_ok, except_map_ok] at h
      obtain ⟨v, hv, ⟨l', r'⟩, hG, heq⟩ := h
      cases heq
      have := ih ts' l' r' extra hG
      simp [readAsciiListG, hv, this, Except.bind, Except.map]

theorem readAsciiListProp_ok (et : ScalarType) (n : Nat) (ts : List String)
    (prop : Property) (rest : List String)
    (h : readAsciiListProp et n ts = .ok (prop, rest)) :
    ts = ts.take n ++ rest ∧ n ≤ ts.length ∧ propLength prop = some n := by
  cases et <;>
  · simp only [readAsciiListProp, except_map_ok] at h
    obtain ⟨⟨l, r⟩, hG, heq⟩ := h
    cases heq
    obtain ⟨h1, h2, h3⟩ := readAsciiListG_ok _ n ts l r hG
    exact ⟨h1, h2, by simp [propLength, h3]⟩

theorem readAsciiListProp_short (et : ScalarType) (n : Nat) (ts : List String)
    (h : ts.length < n) : ∃ e, readAsciiListProp et n ts = .error e := by
  cases et with
  | char =>
    obtain ⟨e, he⟩ := readAsciiListG_short parse_i8 n ts h
    exact ⟨e, by simp [readAsciiListProp, he, Except.map]⟩
  | uchar =>
    obtain ⟨e, he⟩ := readAsciiListG_short parse_u8 n ts h
    exact ⟨e, by simp [readAsciiListProp, he, Except.map]⟩
  | short =>
    obtain ⟨e, he⟩ := readAsciiListG_short parse_i16 n ts h
    exact ⟨e, by simp [readAsciiListProp, he, Except.map]⟩
  | ushort =>
    obtain ⟨e, he⟩ := readAsciiListG_short parse_u16 n ts h
    exact ⟨e, by simp [readAsciiListProp, he, Except.map]⟩
  | int =>
    obtain ⟨e, he⟩ := readAsciiListG_short parse_i32 n ts h
    exact ⟨e, by simp [readAsciiListProp, he, Except.map]⟩
  | uint =>
    obtain ⟨e, he⟩ := readAsciiListG_short parse_u32 n ts h
    exact ⟨e, by simp [readAsciiListProp, he, Except.map]⟩
  | float =>
    obtain ⟨e, he⟩ := readAsciiListG_short parse_f32 n ts h
    exact ⟨e, by simp [readAsciiListProp, he, Except.map]⟩
  | double =>
    obtain ⟨e, he⟩ := readAsciiListG_short parse_f64 n ts h
    exact ⟨e, by simp [readAsciiListProp, he, Except.map]⟩

theorem readAsciiListProp_append (et : ScalarType) (n : Nat)
    (ts : List String) (prop : Property) (rest extra : List String)
    (h : readAsciiListProp et n ts = .ok (prop, rest)) :
    readAsciiListProp et n (ts ++ extra) = .ok (prop, rest ++ extra) := by
  cases et <;>
  · simp only [readAsciiListProp, except_map_ok] at h
    obtain ⟨⟨l, r⟩, hG, heq⟩ := h
    cases heq
    simp [readAsciiListProp, readAsciiListG_append _ n ts l r extra hG, Except.map]

/-- C6 (amended): when the ascii codec decodes a list property, the length
token is parsed as a `usize` — independently of the declared index kind — and
interpreted as a non-negative count `n`; exactly `n` further tokens are then
consumed and parsed as the element kind (on success the remaining stream is
the input minus its first `n` tokens and the produced list has length `n`),
and fewer than `n` available tokens is an error, as is a missing length
token. -/
theorem c6_list_count_parsed_as_usize (it et : ScalarType) (t : String)
    (ts : List String) :
    (read_ascii_property (.list it et) [] =
      .error "Expected element, but found nothing.") ∧
    (parse_usize t = none →
      read_ascii_property (.list it et) (t :: ts) =
        .error ("Parse error. Value: " ++ t)) ∧
    (∀ n, parse_usize t = some n →
      (read_ascii_property (.list it et) (t :: ts) = readAsciiListProp et n ts) ∧
      (∀ p rest, readAsciiListProp et n ts = .ok (p, rest) →
        ts = ts.take n ++ rest ∧ n ≤ ts.length ∧ propLength p = some n) ∧
      (ts.length < n → ∃ e, readAsciiListProp et n ts = .error e)) := by
  refine ⟨rfl, fun hn => ?_, fun n hn => ⟨?_, ?_, fun hs => readAsciiListProp_short et n ts hs⟩⟩
  · simp [read_ascii_property, parseScalarE, hn, Except.bind]
  · simp [read_ascii_property, parseScalarE, hn, Except.bind]
  · exact fun p rest h => readAsciiListProp_ok et n ts p rest h

/-- Witness for C6 at a concrete input (index kind `short`, element kind
`int`, length token 2, two element tokens). -/
theorem c6_list_count_parsed_as_usize_witness :
    (read_ascii_property (.list .short .int) ["2", "7", "8"] =
      readAsciiListProp .int 2 ["7", "8"]) ∧
    (["7", "8"] = ["7", "8"].take 2 ++ ([] : List String) ∧ 2 ≤ (["7", "8"] : List String).length ∧
      propLength (Property.listInt [7, 8]) = some 2) := by
  have h := (c6_list_count_parsed_as_usize .short .int "2" ["7", "8"]).2.2 2 (by decide)
  exact ⟨h.1, h.2.1 (Property.listInt [7, 8]) [] (by decide)⟩

theorem read_ascii_property_append (dt : PropertyType) (ts extra : List String)
    (v : Property) (rest : List String)
    (h : read_ascii_property dt ts = .ok (v, rest)) :
    read_ascii_property dt (ts ++ extra) = .ok (v, rest ++ extra) := by
  cases ts with
  | nil => simp [read_ascii_property] at h
  | cons t ts' =>
    cases dt with
    | scalar st =>
      cases st <;>
      · simp only [read_ascii_property, except_map_ok] at h
        obtain ⟨a, ha, heq⟩ := h
        cases heq
        simp [read_ascii_property, ha, Except.map]
    | list it et =>
      simp only [read_ascii_property, except_bind_ok] at h
      obtain ⟨n, hn, hrest⟩ := h
      have := readAsciiListProp_append et n ts' v rest extra hrest
      simp [read_ascii_property, hn, this, Except.bind]

theorem readAsciiElementGo_append :
    ∀ (ps : List PropertyDef) (ts : List String) (el : DefaultElement)
      (extra : List String) (r : DefaultElement) (leftover : List String),
      readAsciiElementGo ps ts el = .ok (r, leftover) →
      readAsciiElementGo ps (ts ++ extra) el = .ok (r, leftover ++ extra) := by
  intro ps
  induction ps with
  | nil =>
    intro ts el extra r leftover h
    simp [readAsciiElementGo] at h
    obtain ⟨rfl, rfl⟩ := h
    simp [readAsciiElementGo]
  | cons p ps ih =>
    intro ts el extra r leftover h
    simp only [readAsciiElementGo, except_bind_ok] at h
    obtain ⟨⟨val, ts2⟩, hp, hgo⟩ := h
    have h1 := read_ascii_property_append p.data_type ts extra val ts2 hp
    have h2 := ih ts2 (set_property el p.name val) extra r leftover hgo
    simp [readAsciiElementGo, h1, h2, Except.bind]

/-- C10: tokens remaining after all declared properties have been decoded are
silently ignored: whenever `read_ascii_element` succeeds on a token stream,
it succeeds with the very same record on that stream extended by arbitrary
further tokens. -/
theorem c10_trailing_tokens_ignored (edef : ElementDef) (ts extra : List String)
    (r : DefaultElement) (h : read_ascii_element edef ts = .ok r) :
    read_ascii_element edef (ts ++ extra) = .ok r := by
  simp only [read_ascii_element, except_map_ok] at h
  obtain ⟨⟨el, leftover⟩, hgo, heq⟩ := h
  cases heq
  simp [read_ascii_element,
    readAsciiElementGo_append edef.properties ts [] extra el leftover hgo, Except.map]

/-- Witness for C10: a record line with two trailing tokens decodes to the
same record as without them. -/
theorem c10_trailing_tokens_ignored_witness :
    read_ascii_element edefC10 (["1", "2"] ++ ["3", "4"]) =
      .ok [("a", Property.char 1), ("b", Property.uchar 2)] := by
  exact c10_trailing_tokens_ignored edefC10 ["1", "2"] ["3", "4"]
    [("a", Property.char 1), ("b", Property.uchar 2)] (by decide)

theorem wres_bind_ok {α β : Type} (x : WRes α) (f : α → WRes β) (y : β) :
    x.bind f = .ok y ↔ ∃ a, x = .ok a ∧ f a = .ok y := by
  cases x <;> simp [WRes.bind]

theorem wres_map_ok {α β : Type} (f : α → β) (x : WRes α) (y : β) :
    x.map f = .ok y ↔ ∃ a, x = .ok a ∧ f a = y := by
  cases x <;> simp [WRes.map]

theorem lookupKM_append_left {α : Type} :
    ∀ (pl : List (String × α)) (k : String) (v : α) (extra : List (String × α)),
      lookupKM pl k = some v → lookupKM (pl ++ extra) k = some v := by
  intro pl
  induction pl with
  | nil => intro k v extra h; simp [lookupKM] at h
  | cons x rest ih =>
    intro k v extra h
    by_cases hk : x.1 = k
    · simp only [lookupKM, if_pos hk] at h
      simp only [List.cons_append, lookupKM, if_pos hk]
      exact h
    · simp only [lookupKM, if_neg hk] at h
      simp only [List.cons_append, lookupKM, if_neg hk]
      exact ih k v extra h

theorem lookupKM_eq_none_iff {α : Type} :
    ∀ (pl : List (String × α)) (k : String),
      lookupKM pl k = none ↔ k ∉ pl.map Prod.fst := by
  intro pl
  induction pl with
  | nil => intro k; simp [lookupKM]
  | cons x rest ih =>
    intro k
    simp only [List.map_cons, List.mem_cons]
    by_cases hk : x.1 = k
    · subst hk
      simp [lookupKM]
    · have hne : ¬ k = x.1 := fun hc => hk hc.symm
      simp [lookupKM, hk, ih, hne]

theorem lookupKM_some_mem {α : Type} :
    ∀ (pl : List (String × α)) (k : String) (v : α),
      lookupKM pl k = some v → (k, v) ∈ pl := by
  intro pl
  induction pl with
  | nil => intro k v h; simp [lookupKM] at h
  | cons x rest ih =>
    intro k v h
    by_cases hk : x.1 = k
    · subst hk
      simp only [lookupKM, if_true, eq_self_iff_true, Option.some.injEq] at h
      subst h
      rw [Prod.mk.eta]
      exact List.mem_cons_self _ _
    · simp only [lookupKM, if_neg hk] at h
      exact List.mem_cons_of_mem _ (ih k v h)

theorem lookupKM_append_self {α : Type} :
    ∀ (pl : List (String × α)) (k : String) (v : α),
      lookupKM pl k = none → lookupKM (pl ++ [(k, v)]) k = some v := by
  intro pl
  induction pl with
  | nil => intro k v _; simp [lookupKM]
  | cons x rest ih =>
    intro k v h
    by_cases hk : x.1 = k
    · simp [lookupKM, hk] at h
    · simp only [List.cons_append, lookupKM, hk, if_neg, not_false_iff] at h ⊢
      exact ih k v h

theorem insertMissing_extends :
    ∀ (els : List ElementDef) (pl : Payload),
      ∃ extra, insertMissing els pl = pl ++ extra := by
  intro els
  induction els with
  | nil => exact fun pl => ⟨[], by simp [insertMissing]⟩
  | cons e els ih =>
    intro pl
    by_cases hp : (lookupKM pl e.name).isSome
    · obtain ⟨extra, hx⟩ := ih pl
      exact ⟨extra, by simpa [insertMissing, hp] using hx⟩
    · obtain ⟨extra, hx⟩ := ih (pl ++ [(e.name, [])])
      refine ⟨(e.name, []) :: extra, ?_⟩
      have : insertMissing (e :: els) pl = insertMissing els (pl ++ [(e.name, [])]) := by
        simp [insertMissing, hp]
      rw [this, hx, List.append_assoc]
      rfl

theorem insertMissing_isSome_mono :
    ∀ (els : List ElementDef) (pl : Payload) (k : String),
      (lookupKM pl k).isSome → (lookupKM (insertMissing els pl) k).isSome := by
  intro els
  induction els with
  | nil => intro pl k h; simpa [insertMissing] using h
  | cons e els ih =>
    intro pl k h
    by_cases hp : (lookupKM pl e.name).isSome
    · have : insertMissing (e :: els) pl = insertMissing els pl := by simp [insertMissing, hp]
      rw [this]; exact ih pl k h
    · have : insertMissing (e :: els) pl = insertMissing els (pl ++ [(e.name, [])]) := by
        simp [insertMissing, hp]
      rw [this]
      refine ih _ k ?_
      obtain ⟨v, hv⟩ := Option.isSome_iff_exists.mp h
      rw [lookupKM_append_left pl k v _ hv]
      rfl

theorem insertMissing_mem_isSome :
    ∀ (els : List ElementDef) (pl : Payload) (e : ElementDef),
      e ∈ els → (lookupKM (insertMissing els pl) e.name).isSome := by
  intro els
  induction els with
  | nil => intro pl e h; simp at h
  | cons e0 els ih =>
    intro pl e h
    rcases List.mem_cons.mp h with rfl | hmem
    · by_cases hp : (lookupKM pl e.name).isSome
      · have : insertMissing (e :: els) pl = insertMissing els pl := by
          simp [insertMissing, hp]
        rw [this]; exact insertMissing_isSome_mono els pl e.name hp
      · have : insertMissing (e :: els) pl = insertMissing els (pl ++ [(e.name, [])]) := by
          simp [insertMissing, hp]
        rw [this]
        refine insertMissing_isSome_mono els _ e.name ?_
        rw [lookupKM_append_self pl e.name [] (Option.not_isSome_iff_eq_none.mp hp)]
        rfl
    · by_cases hp : (lookupKM pl e0.name).isSome
      · have : insertMissing (e0 :: els) pl = insertMissing els pl := by
          simp [insertMissing, hp]
        rw [this]; exact ih pl e hmem
      · have : insertMissing (e0 :: els) pl = insertMissing els (pl ++ [(e0.name, [])]) := by
          simp [insertMissing, hp]
        rw [this]; exact ih _ e hmem

theorem insertMissing_keys_nodup :
    ∀ (els : List ElementDef) (pl : Payload),
      (pl.map Prod.fst).Nodup → ((insertMissing els pl).map Prod.fst).Nodup := by
  intro els
  induction els with
  | nil => intro pl h; simpa [insertMissing] using h
  | cons e els ih =>
    intro pl h
    by_cases hp : (lookupKM pl e.name).isSome
    · have : insertMissing (e :: els) pl = insertMissing els pl := by simp [insertMissing, hp]
      rw [this]; exact ih pl h
    · have heq : insertMissing (e :: els) pl = insertMissing els (pl ++ [(e.name, [])]) := by
        simp [insertMissing, hp]
      rw [heq]
      refine ih _ ?_
      have hnm : e.name ∉ pl.map Prod.fst :=
        (lookupKM_eq_none_iff pl e.name).mp (Option.not_isSome_iff_eq_none.mp hp)
      simp [List.nodup_append, h, hnm]

theorem updateCount_maps :
    ∀ (els : List ElementDef) (k : String) (n : Nat) (els' : List ElementDef),
      updateCount els k n = some els' →
      els'.map ElementDef.name = els.map ElementDef.name ∧
      els'.map ElementDef.properties = els.map ElementDef.properties := by
  intro els
  induction els with
  | nil => intro k n els' h; simp [updateCount] at h
  | cons e rest ih =>
    intro k n els' h
    by_cases hk : e.name = k
    · simp only [updateCount, if_pos hk, Option.some.injEq] at h
      subst h
      simp
    · simp only [updateCount, if_neg hk, Option.map_eq_some'] at h
      obtain ⟨rest', hr, rfl⟩ := h
      obtain ⟨h1, h2⟩ := ih k n rest' hr
      simp [h1, h2]

theorem updateCount_lookupElem :
    ∀ (els : List ElementDef) (k : String) (n : Nat) (els' : List ElementDef),
      updateCount els k n = some els' →
      (∀ k', k' ≠ k → lookupElem els' k' = lookupElem els k') ∧
      lookupElem els' k = (lookupElem els k).map fun e => { e with count := n } := by
  intro els
  induction els with
  | nil => intro k n els' h; simp [updateCount] at h
  | cons e rest ih =>
    intro k n els' h
    by_cases hk : e.name = k
    · simp only [updateCount, if_pos hk, Option.some.injEq] at h
      subst h
      constructor
      · intro k' hk'
        have hne : e.name ≠ k' := fun hc => hk' (hc ▸ hk)
        simp [lookupElem, hne]
      · simp [lookupElem, hk]
    · simp only [updateCount, if_neg hk, Option.map_eq_some'] at h
      obtain ⟨rest', hr, rfl⟩ := h
      obtain ⟨h1, h2⟩ := ih k n rest' hr
      constructor
      · intro k' hk'
        by_cases he : e.name = k'
        · simp [lookupElem, he]
        · simp only [lookupElem, if_neg he]
          exact h1 k' hk'
      · simp only [lookupElem, if_neg hk]
        exact h2

theorem updateCount_isSome_iff :
    ∀ (els : List ElementDef) (k : String) (n : Nat),
      (updateCount els k n).isSome ↔ (lookupElem els k).isSome := by
  intro els
  induction els with
  | nil => intro k n; simp [updateCount, lookupElem]
  | cons e rest ih =>
    intro k n
    by_cases hk : e.name = k <;> simp [updateCount, lookupElem, hk, ih]

theorem setCountsSt_maps :
    ∀ (P : List (String × List DefaultElement)) (els : List ElementDef),
      (setCountsSt P els).1.map ElementDef.name = els.map ElementDef.name ∧
      (setCountsSt P els).1.map ElementDef.properties = els.map ElementDef.properties := by
  intro P
  induction P with
  | nil => exact fun els => ⟨rfl, rfl⟩
  | cons x rest ih =>
    intro els
    obtain ⟨pk, pe⟩ := x
    by_cases hpk : pk = ""
    · simp [setCountsSt, hpk]
    · cases hu : updateCount els pk pe.length with
      | none => simp [setCountsSt, hpk, hu]
      | some els1 =>
        have h1 := updateCount_maps els pk pe.length els1 hu
        have h2 := ih els1
        constructor
        · rw [show setCountsSt ((pk, pe) :: rest) els = setCountsSt rest els1 by
            simp [setCountsSt, hpk, hu]]
          rw [h2.1, h1.1]
        · rw [show setCountsSt ((pk, pe) :: rest) els = setCountsSt rest els1 by
            simp [setCountsSt, hpk, hu]]
          rw [h2.2, h1.2]

theorem setCountsSt_lookup :
    ∀ (P : List (String × List DefaultElement)) (els els' : List ElementDef),
      (P.map Prod.fst).Nodup → setCountsSt P els = (els', none) →
      ∀ k, lookupElem els' k =
        match lookupKM P k with
        | some pe => (lookupElem els k).map fun e => { e with count := pe.length }
        | none => lookupElem els k := by
  intro P
  induction P with
  | nil =>
    intro els els' _ h k
    simp only [setCountsSt, Prod.mk.injEq] at h
    rw [← h.1]
    simp [lookupKM]
  | cons x rest ih =>
    intro els els' hnd h k
    obtain ⟨pk, pe⟩ := x
    by_cases hpk : pk = ""
    · rw [show setCountsSt ((pk, pe) :: rest) els =
          (els, some "Element cannot have empty name.") by simp [setCountsSt, hpk]] at h
      exact absurd (congrArg Prod.snd h) (by simp)
    · cases hu : updateCount els pk pe.length with
      | none =>
        rw [show setCountsSt ((pk, pe) :: rest) els =
            (els, some "No decleration for element found.") by simp [setCountsSt, hpk, hu]] at h
        exact absurd (congrArg Prod.snd h) (by simp)
      | some els1 =>
        rw [show setCountsSt ((pk, pe) :: rest) els = setCountsSt rest els1 by
          simp [setCountsSt, hpk, hu]] at h
        simp only [List.map_cons, List.nodup_cons] at hnd
        have hrest := ih els1 els' hnd.2 h
        have hupd := updateCount_lookupElem els pk pe.length els1 hu
        by_cases hk : k = pk
        · subst hk
          have hnone : lookupKM rest k = none := (lookupKM_eq_none_iff rest k).mpr hnd.1
          have h2 : lookupElem els' k = lookupElem els1 k := by
            rw [hrest k, hnone]
          have h3 : lookupKM ((k, pe) :: rest) k = some pe := by simp [lookupKM]
          rw [h2, hupd.2, h3]
        · have hne : pk ≠ k := fun hc => hk hc.symm
          have h2 := hrest k
          rw [hupd.1 k hk] at h2
          have h3 : lookupKM ((pk, pe) :: rest) k = lookupKM rest k := by
            simp [lookupKM, hne]
          rw [h3]
          exact h2

theorem lookupElem_of_mem_nodup :
    ∀ (els : List ElementDef), (els.map ElementDef.name).Nodup →
      ∀ e ∈ els, lookupElem els e.name = some e := by
  intro els
  induction els with
  | nil => intro _ e h; simp at h
  | cons e0 rest ih =>
    intro hnd e h
    simp only [List.map_cons, List.nodup_cons] at hnd
    rcases List.mem_cons.mp h with rfl | hmem
    · simp [lookupElem]
    · have hne : e0.name ≠ e.name := fun hc => hnd.1 (hc ▸ List.mem_map_of_mem _ hmem)
      simp only [lookupElem, if_neg hne]
      exact ih hnd.2 e hmem

/-- C3: after a successful `make_consistent`, every element definition's
`count` equals the length of the payload sequence stored under the element's
name, and every declared element has a (possibly empty) payload entry.  The
`Nodup` hypotheses state the key uniqueness that `LinkedHashMap` guarantees
structurally in the source. -/
theorem c3_make_consistent_counts (p p' : Ply)
    (hkeys : (p.payload.map Prod.fst).Nodup)
    (hnames : (p.header.elements.map ElementDef.name).Nodup)
    (h : make_consistent p = (p', none)) :
    ∀ e ∈ p'.header.elements,
      ∃ l, lookupKM p'.payload e.name = some l ∧ e.count = l.length := by
  simp only [make_consistent] at h
  rcases hsc : setCountsSt (insertMissing p.header.elements p.payload) p.header.elements
    with ⟨els1, err2⟩
  rw [hsc] at h
  cases err2 with
  | some e =>
    dsimp only at h
    exact absurd (congrArg Prod.snd h) (by simp)
  | none =>
    dsimp only at h
    cases hhc : headerChecks { p.header with elements := els1 } with
    | some e =>
      rw [hhc] at h
      exact absurd (congrArg Prod.snd h) (by simp)
    | none =>
      rw [hhc] at h
      have hp' := (congrArg Prod.fst h).symm
      subst hp'
      intro e he
      dsimp only at he ⊢
      have hname1 : els1.map ElementDef.name = p.header.elements.map ElementDef.name := by
        have hm := (setCountsSt_maps (insertMissing p.header.elements p.payload)
          p.header.elements).1
        rw [hsc] at hm
        exact hm
      have hmemname : e.name ∈ p.header.elements.map ElementDef.name := by
        rw [← hname1]
        exact List.mem_map_of_mem _ he
      obtain ⟨e0, he0, hne0⟩ := List.mem_map.mp hmemname
      have hsome : (lookupKM (insertMissing p.header.elements p.payload) e.name).isSome := by
        rw [← hne0]
        exact insertMissing_mem_isSome p.header.elements p.payload e0 he0
      obtain ⟨l, hl⟩ := Option.isSome_iff_exists.mp hsome
      refine ⟨l, hl, ?_⟩
      have hknd : ((insertMissing p.header.elements p.payload).map Prod.fst).Nodup :=
        insertMissing_keys_nodup _ _ hkeys
      have hchar := setCountsSt_lookup (insertMissing p.header.elements p.payload)
        p.header.elements els1 hknd hsc e.name
      have hnd1 : (els1.map ElementDef.name).Nodup := by rw [hname1]; exact hnames
      have hle : lookupElem els1 e.name = some e := lookupElem_of_mem_nodup els1 hnd1 e he
      rw [hl, hle] at hchar
      cases hlo : lookupElem p.header.elements e.name with
      | none => rw [hlo] at hchar; simp at hchar
      | some e2 =>
        rw [hlo] at hchar
        simp only [Option.map_some', Option.some.injEq] at hchar
        rw [hchar]

/-- Witness for C3 at a concrete input (`c2ply`). -/
theorem c3_make_consistent_counts_witness :
    ∃ l, lookupKM c2plyC.payload "e" = some l ∧ 1 = l.length := by
  have h := c3_make_consistent_counts c2ply c2plyC (by decide) (by decide) (by decide)
    ⟨"e", 1, [⟨"x", .list .uchar .char⟩]⟩ (by decide)
  exact h

/-- C7: `make_consistent` never changes a record sequence already present in
the payload — whether it succeeds or fails — and the only header fields it
modifies are the `count` fields of the element definitions (encoding,
version, comments, obj_infos, and each element's name and property map are
untouched). -/
theorem c7_make_consistent_frame (p p' : Ply) (err : Option String)
    (h : make_consistent p = (p', err)) :
    (∀ k l, lookupKM p.payload k = some l → lookupKM p'.payload k = some l) ∧
    p'.header.encoding = p.header.encoding ∧
    p'.header.version = p.header.version ∧
    p'.header.comments = p.header.comments ∧
    p'.header.obj_infos = p.header.obj_infos ∧
    p'.header.elements.map ElementDef.name = p.header.elements.map ElementDef.name ∧
    p'.header.elements.map ElementDef.properties =
      p.header.elements.map ElementDef.properties := by
  simp only [make_consistent] at h
  rcases hsc : setCountsSt (insertMissing p.header.elements p.payload) p.header.elements
    with ⟨els1, err2⟩
  rw [hsc] at h
  have hp' : p' = Ply.mk { p.header with elements := els1 }
      (insertMissing p.header.elements p.payload) := by
    cases err2 with
    | some e =>
      dsimp only at h
      exact (congrArg Prod.fst h).symm
    | none =>
      dsimp only at h
      cases hhc : headerChecks { p.header with elements := els1 } with
      | some e => rw [hhc] at h; exact (congrArg Prod.fst h).symm
      | none => rw [hhc] at h; exact (congrArg Prod.fst h).symm
  subst hp'
  refine ⟨?_, rfl, rfl, rfl, rfl, ?_, ?_⟩
  · intro k l hl
    obtain ⟨extra, hex⟩ := insertMissing_extends p.header.elements p.payload
    dsimp only
    rw [hex]
    exact lookupKM_append_left _ k l extra hl
  · have hm := (setCountsSt_maps (insertMissing p.header.elements p.payload)
      p.header.elements).1
    rw [hsc] at hm
    exact hm
  · have hm := (setCountsSt_maps (insertMissing p.header.elements p.payload)
      p.header.elements).2
    rw [hsc] at hm
    exact hm

/-- Witness for C7 at a concrete input (`c2ply`). -/
theorem c7_make_consistent_frame_witness :
    lookupKM c2plyC.payload "e" = some [[("x", Property.listChar [5, 6, 7])]] ∧
    c2plyC.header.encoding = c2ply.header.encoding := by
  have h := c7_make_consistent_frame c2ply c2plyC none (by decide)
  exact ⟨h.1 "e" [[("x", Property.listChar [5, 6, 7])]] (by decide), h.2.1⟩

theorem writeAsciiElements_panicked (edef : ElementDef) (l : List DefaultElement)
    (hprops : edef.properties = []) (hne : l ≠ []) :
    writeAsciiElements edef l = .panicked := by
  cases l with
  | nil => exact absurd rfl hne
  | cons el els => simp [writeAsciiElements, write_ascii_element, hprops, WRes.bind]

theorem writePayloadGo_entry_not_ok (h : Header) :
    ∀ (P : Payload) (k : String) (l : List DefaultElement) (edef : ElementDef),
      (k, l) ∈ P → lookupElem h.elements k = some edef →
      h.encoding = .ascii → edef.properties = [] → l ≠ [] →
      ∀ out, writePayloadGo h P ≠ .ok out := by
  intro P
  induction P with
  | nil => intro k l edef hmem; simp at hmem
  | cons x rest ih =>
    intro k l edef hmem hlook henc hprops hne out hok
    rcases List.mem_cons.mp hmem with heq | hmem'
    · cases heq
      have hpan := writeAsciiElements_panicked edef l hprops hne
      have hval : writePayloadGo h ((k, l) :: rest) = .panicked := by
        simp [writePayloadGo, hlook, write_payload_of_element, henc, hpan, WRes.bind]
      rw [hval] at hok
      exact WRes.noConfusion hok
    · obtain ⟨k0, l0⟩ := x
      cases hlk : lookupElem h.elements k0 with
      | none =>
        rw [show writePayloadGo h ((k0, l0) :: rest) = .panicked by
          simp [writePayloadGo, hlk]] at hok
        exact WRes.noConfusion hok
      | some edef0 =>
        rw [show writePayloadGo h ((k0, l0) :: rest) =
            (write_payload_of_element l0 edef0 h).bind fun b =>
              (writePayloadGo h rest).map fun t => b ++ t by
          simp [writePayloadGo, hlk]] at hok
        rw [wres_bind_ok] at hok
        obtain ⟨b, -, hok2⟩ := hok
        rw [wres_map_ok] at hok2
        obtain ⟨t, ht, -⟩ := hok2
        exact ih k l edef hmem' hlook henc hprops hne t ht

/-- C9 (amended): `write_ascii_element` on an element definition with an
empty property map panics (the `unwrap` of the first property); consequently
a whole-file write of a consistent ascii `Ply` containing such an element
with at least one record never returns a written byte count — it panics or,
when the header itself fails to write (e.g. a float-indexed list property
elsewhere), returns an error. -/
theorem c9_empty_property_element (el : DefaultElement) (edef : ElementDef)
    (p p' : Ply) (l : List DefaultElement)
    (hprops : edef.properties = [])
    (h : make_consistent p = (p', none))
    (henc : p'.header.encoding = .ascii)
    (hnodup : (p'.header.elements.map ElementDef.name).Nodup)
    (hmem : edef ∈ p'.header.elements)
    (hpl : lookupKM p'.payload edef.name = some l)
    (hne : l ≠ []) :
    write_ascii_element el edef = .panicked ∧ ∀ out, write_ply p ≠ .ok out := by
  constructor
  · simp [write_ascii_element, hprops]
  · intro out hok
    rw [show write_ply p = write_ply_unchecked p' by simp [write_ply, h]] at hok
    simp only [write_ply_unchecked] at hok
    rw [wres_bind_ok] at hok
    obtain ⟨hb, -, hok2⟩ := hok
    rw [wres_map_ok] at hok2
    obtain ⟨pb, hpb, -⟩ := hok2
    have hlook : lookupElem p'.header.elements edef.name = some edef :=
      lookupElem_of_mem_nodup _ hnodup edef hmem
    have hentry : (edef.name, l) ∈ p'.payload := lookupKM_some_mem _ _ _ hpl
    exact writePayloadGo_entry_not_ok p'.header p'.payload edef.name l edef
      hentry hlook henc hprops hne pb hpb

/-- Witness for the amended C9 at a concrete input (`c9okPly`). -/
theorem c9_empty_property_element_witness :
    write_ascii_element [] ⟨"a", 1, []⟩ = .panicked ∧
    write_ply c9okPly ≠ WRes.ok [] := by
  have h := c9_empty_property_element [] ⟨"a", 1, []⟩ c9okPly
    (make_consistent c9okPly).1 [[]] rfl (by decide) (by decide) (by decide)
    (by decide) (by decide) (by decide)
  exact ⟨h.1, h.2 []⟩

end PlyRs
